import Mathlib

/-!
Shallow embedding of the citrus-common field/panel model and its two binary
codecs, together with proofs of the specification's claims about them.

The embedding follows `src/panel.rs`, `src/field.rs`, `src/format/mod.rs`,
`src/format/fld.rs` and `src/format/fldx.rs`.  Byte streams are modelled as
`List Nat` (each element a byte value); the Rust `Read` loop semantics of a
cursor over a byte slice are modelled exactly, including the reuse of the
stale read buffer on a short final read.
-/

set_option maxHeartbeats 1000000
set_option maxRecDepth 4000

namespace Citrus

/-- A panel's exits bitmask (`pub struct Exits(u8)` in `panel.rs`).
Bit order (low to high): West, North, East, South. -/
structure Exits where
  val : Nat
deriving DecidableEq, Repr

namespace Exits

/-- West, `0b0001` (`Exits::WEST`). -/
def WEST : Exits := ⟨1⟩

/-- North, `0b0010` (`Exits::NORTH`). -/
def NORTH : Exits := ⟨2⟩

/-- East, `0b0100` (`Exits::EAST`). -/
def EAST : Exits := ⟨4⟩

/-- South, `0b1000` (`Exits::SOUTH`). -/
def SOUTH : Exits := ⟨8⟩

/-- An empty exit set (`Exits::none()`). -/
def none : Exits := ⟨0⟩

/-- Membership test, `Exits::has` and the `&` operator: `self.0 & rhs.0 > 0`. -/
def has (e rhs : Exits) : Bool := decide (0 < (e.val &&& rhs.val))

/-- The `|` operator on `Exits`: bitwise or. -/
def or (a b : Exits) : Exits := ⟨a.val ||| b.val⟩

end Exits

/-- The closed enumeration of tile types (`PanelKind` in `panel.rs`). -/
inductive PanelKind where
  | Empty
  | Neutral
  | Home
  | Encounter
  | Draw
  | Bonus
  | Drop
  | Warp
  | Draw2x
  | Bonus2x
  | Drop2x
  | Deck
  | Encounter2x
  | Move
  | Move2x
  | WarpMove
  | WarpMove2x
  | Ice
  | Heal
  | Heal2x
  | Damage
  | Damage2x
deriving DecidableEq, Repr

namespace PanelKind

/-- The `#[repr(u8)]` discriminants of `PanelKind` (`Into<u8>`). -/
def toByte : PanelKind → Nat
  | Empty => 0x00
  | Neutral => 0x01
  | Home => 0x02
  | Encounter => 0x03
  | Draw => 0x04
  | Bonus => 0x05
  | Drop => 0x06
  | Warp => 0x07
  | Draw2x => 0x08
  | Bonus2x => 0x09
  | Drop2x => 0x0A
  | Deck => 0x12
  | Encounter2x => 0x14
  | Move => 0x15
  | Move2x => 0x16
  | WarpMove => 0x17
  | WarpMove2x => 0x18
  | Ice => 0x19
  | Heal => 0x1B
  | Heal2x => 0x1C
  | Damage => 0x20
  | Damage2x => 0x21

/-- Fallible byte-to-kind conversion (`TryFrom<u8>` for `PanelKind`).
Unassigned byte values map to `Option.none` (the `TryFromPrimitiveError`). -/
def fromByte : Nat → Option PanelKind
  | 0x00 => some Empty
  | 0x01 => some Neutral
  | 0x02 => some Home
  | 0x03 => some Encounter
  | 0x04 => some Draw
  | 0x05 => some Bonus
  | 0x06 => some Drop
  | 0x07 => some Warp
  | 0x08 => some Draw2x
  | 0x09 => some Bonus2x
  | 0x0A => some Drop2x
  | 0x12 => some Deck
  | 0x14 => some Encounter2x
  | 0x15 => some Move
  | 0x16 => some Move2x
  | 0x17 => some WarpMove
  | 0x18 => some WarpMove2x
  | 0x19 => some Ice
  | 0x1B => some Heal
  | 0x1C => some Heal2x
  | 0x20 => some Damage
  | 0x21 => some Damage2x
  | _ => Option.none

end PanelKind

/-- A single panel (`pub struct Panel` in `panel.rs`). -/
structure Panel where
  kind : PanelKind
  exits : Exits
  exits_backtrack : Exits
deriving DecidableEq, Repr

namespace Panel

/-- A fresh panel with both exit sets empty (`Panel::new`). -/
def new (kind : PanelKind) : Panel :=
  { kind := kind, exits := Exits.none, exits_backtrack := Exits.none }

/-- Unpacking of the exits byte (`Panel::from_internal`) — low nibble `exits`,
high nibble `exits_backtrack`. -/
def from_internal (kind : PanelKind) (exits : Nat) : Panel :=
  { kind := kind
    exits := ⟨exits &&& 0xF⟩
    exits_backtrack := ⟨(exits >>> 4) &&& 0xF⟩ }

/-- Packing of the two exit sets into one byte (`Panel::exits_internal`),
`(exits_backtrack << 4) | exits` in `u8` arithmetic. -/
def exits_internal (p : Panel) : Nat :=
  ((p.exits_backtrack.val <<< 4) % 256) ||| p.exits.val

/-- The states of a `Panel` reachable through the Rust API: both exit masks
live in the low 4 bits of a `u8`. -/
def valid (p : Panel) : Prop :=
  p.exits.val < 16 ∧ p.exits_backtrack.val < 16

instance (p : Panel) : Decidable p.valid := by
  unfold valid; infer_instance

end Panel

/-- A field (`pub struct Field` in `field.rs`): a row-major flattened
panel buffer together with its dimensions. -/
structure Field where
  data : List Panel
  width : Nat
  height : Nat
deriving DecidableEq, Repr

namespace Field

/-- The `Field::new_vec` construction invariant: `data.len() == width * height`. -/
def wf (f : Field) : Prop := f.data.length = f.width * f.height

instance (f : Field) : Decidable f.wf := by
  unfold wf; infer_instance

/-- Every panel of the field is in an API-reachable state. -/
def validPanels (f : Field) : Prop := ∀ p ∈ f.data, p.valid

instance (f : Field) : Decidable f.validPanels := by
  unfold validPanels; infer_instance

/-- Reading the panel at `(x, y)`: `Field::flatten_index` is
`y * width + x`, and `Field::get` dereferences `data[idx]`. -/
def getP (f : Field) (x y : Nat) : Panel :=
  (f.data[y * f.width + x]?).getD (Panel.new PanelKind.Empty)

/-- All `(x, y)` positions, row-major (`Field::iter()`). -/
def positions (f : Field) : List (Nat × Nat) :=
  (List.range f.height).flatMap (fun y => (List.range f.width).map (fun x => (x, y)))

end Field

/-- Signed offset arithmetic with a bounds check (`offset_common` in `field.rs`);
check, `Option.some` of the new coordinates on success. -/
def offset_common (f : Field) (x y : Nat) (xo yo : Int) : Option (Nat × Nat) :=
  if 0 ≤ (x : Int) + xo ∧ 0 ≤ (y : Int) + yo then
    if ((x : Int) + xo).toNat < f.width ∧ ((y : Int) + yo).toNat < f.height then
      Option.some (((x : Int) + xo).toNat, ((y : Int) + yo).toNat)
    else Option.none
  else
    Option.none

/-- Relative offsetting of an accessor (`PanelRef::offset` / `PanelMut::offset`):
an accessor is its coordinate
pair; `Except.error` is the `Err(self)` "stayed put" result carrying the
original coordinates. -/
def offsetRef (f : Field) (x y : Nat) (xo yo : Int) : Except (Nat × Nat) (Nat × Nat) :=
  match offset_common f x y xo yo with
  | Option.some p => Except.ok p
  | Option.none => Except.error (x, y)

namespace Field

/-- The first pass of `Field::build_backtrack`: clear `exits_backtrack`
on every panel. -/
def clearBacktrack (f : Field) : Field :=
  { f with data := f.data.map (fun p => { p with exits_backtrack := Exits.none }) }

/-- Or the direction `d` into the backtrack exits of the panel at `(x, y)`
(the `adjacent.exits_backtrack |= d` update). -/
def orBacktrack (f : Field) (x y : Nat) (d : Exits) : Field :=
  let p := f.getP x y
  let p2 : Panel := { p with exits_backtrack := Exits.or p.exits_backtrack d }
  { f with data := f.data.set (y * f.width + x) p2 }

/-- One direction case of the `build_backtrack` body: if the panel at
`(x, y)` has forward exit `d`, or the opposite direction `opp` into the
neighbor reached by `(xo, yo)`, skipping an out-of-bounds neighbor. -/
def dirStep (d : Exits) (xo yo : Int) (opp : Exits) (f : Field) (x y : Nat) : Field :=
  if (f.getP x y).exits.has d then
    match offset_common f x y xo yo with
    | Option.some q => f.orBacktrack q.1 q.2 opp
    | Option.none => f
  else
    f

/-- The full `build_backtrack` loop body at one position: the four
direction cases in source order — south, north, west, east. -/
def buildStep (f : Field) (q : Nat × Nat) : Field :=
  let f1 := dirStep Exits.SOUTH 0 (-1) Exits.NORTH f q.1 q.2
  let f2 := dirStep Exits.NORTH 0 1 Exits.SOUTH f1 q.1 q.2
  let f3 := dirStep Exits.WEST (-1) 0 Exits.EAST f2 q.1 q.2
  dirStep Exits.EAST 1 0 Exits.WEST f3 q.1 q.2

/-- The backtrack-reconstruction pass (`Field::build_backtrack`): clear all
backtrack exits, then run the
direction pass over every position, row-major. -/
def build_backtrack (f : Field) : Field :=
  List.foldl buildStep f.clearBacktrack f.positions

end Field

/-- The bits a processed position `q` contributes to the backtrack exits of
the panel at `(x, y)` during the `build_backtrack` pass. -/
def contrib (f : Field) (x y : Nat) (q : Nat × Nat) : Nat :=
  (if (f.getP q.1 q.2).exits.has Exits.SOUTH ∧
      offset_common f q.1 q.2 0 (-1) = Option.some (x, y) then Exits.NORTH.val else 0) |||
  (if (f.getP q.1 q.2).exits.has Exits.NORTH ∧
      offset_common f q.1 q.2 0 1 = Option.some (x, y) then Exits.SOUTH.val else 0) |||
  (if (f.getP q.1 q.2).exits.has Exits.WEST ∧
      offset_common f q.1 q.2 (-1) 0 = Option.some (x, y) then Exits.EAST.val else 0) |||
  (if (f.getP q.1 q.2).exits.has Exits.EAST ∧
      offset_common f q.1 q.2 1 0 = Option.some (x, y) then Exits.WEST.val else 0)

/-- The specified value of `exits_backtrack` at `(x, y)` after the pass:
exactly the bits derived from the in-bounds neighbors' forward exits. -/
def backtrackSpecVal (f : Field) (x y : Nat) : Nat :=
  (if y + 1 < f.height ∧ (f.getP x (y + 1)).exits.has Exits.SOUTH then Exits.NORTH.val else 0) |||
  (if 1 ≤ y ∧ (f.getP x (y - 1)).exits.has Exits.NORTH then Exits.SOUTH.val else 0) |||
  (if x + 1 < f.width ∧ (f.getP (x + 1) y).exits.has Exits.WEST then Exits.EAST.val else 0) |||
  (if 1 ≤ x ∧ (f.getP (x - 1) y).exits.has Exits.EAST then Exits.WEST.val else 0)

/-- Decode errors, mirroring how the source classifies failures:
`UnexpectedEof` from `read_u16`, `InvalidData` wrapping either the
`TryFromPrimitiveError` (offending kind byte) or `InvalidSize`
(expected and actual panel counts). -/
inductive DecodeErr where
  | unexpectedEof
  | unknownKind (b : Nat)
  | invalidSize (expected got : Nat)
deriving DecidableEq, Repr

/-- Little-endian 16-bit write (`write_u16`), after the `as u16` truncation. -/
def u16le (n : Nat) : List Nat := [n % 256, n / 256 % 256]

/-- Little-endian 16-bit read (`read_u16`); a short read is
`UnexpectedEof`. -/
def readU16 : List Nat → Except DecodeErr (Nat × List Nat)
  | b0 :: b1 :: rest => Except.ok (b0 + 256 * b1, rest)
  | _ => Except.error DecodeErr.unexpectedEof

namespace fldx

/-- The two bytes `fldx::encode` writes for one panel:
`[panel.kind.into(), panel.exits_internal()]`. -/
def encodePanel (p : Panel) : List Nat := [p.kind.toByte, p.exits_internal]

/-- Encoding in the `.fldx` format (`fldx::encode`): little-endian `u16`
width and height, then the panels
in row-major order, two bytes each. -/
def encode (f : Field) : List Nat :=
  u16le f.width ++ u16le f.height ++
    (f.positions.map (fun q => encodePanel (f.getP q.1 q.2))).flatten

/-- The `fldx::decode` read loop over 2-byte records.  `prev` is the
current content of `panel_buf[1]`: a final 1-byte read leaves it stale,
and the record is still processed. -/
def decodeLoop (prev : Nat) : List Nat → Except DecodeErr (List Panel)
  | [] => Except.ok []
  | [b0] =>
    match PanelKind.fromByte b0 with
    | Option.none => Except.error (DecodeErr.unknownKind b0)
    | Option.some k => Except.ok [Panel.from_internal k prev]
  | b0 :: b1 :: rest =>
    match PanelKind.fromByte b0 with
    | Option.none => Except.error (DecodeErr.unknownKind b0)
    | Option.some k =>
      match decodeLoop b1 rest with
      | Except.ok ps => Except.ok (Panel.from_internal k b1 :: ps)
      | Except.error e => Except.error e

/-- Decoding of the `.fldx` format (`fldx::decode`): read the header,
decode the records, then check the
panel count against `width * height`. -/
def decode (l : List Nat) : Except DecodeErr Field :=
  match readU16 l with
  | Except.error e => Except.error e
  | Except.ok (width, rest) =>
    match readU16 rest with
    | Except.error e => Except.error e
    | Except.ok (height, rest2) =>
      match decodeLoop 0 rest2 with
      | Except.error e => Except.error e
      | Except.ok data =>
        if data.length = width * height then
          Except.ok ⟨data, width, height⟩
        else
          Except.error (DecodeErr.invalidSize (width * height) data.length)

end fldx

namespace fld

/-- The eight bytes `fld::encode` writes for one panel:
`[kind, 0, 0, 0, exits_internal, 0, 0, 0]`. -/
def encodePanel (p : Panel) : List Nat :=
  [p.kind.toByte, 0, 0, 0, p.exits_internal, 0, 0, 0]

/-- Encoding in the `.fld` format (`fld::encode`): the panels in row-major
order, eight bytes each,
no header. -/
def encode (f : Field) : List Nat :=
  (f.positions.map (fun q => encodePanel (f.getP q.1 q.2))).flatten

/-- The `fld::decode` read loop over 8-byte records.  `prev4` is the
current content of `panel_buf[4]`; a short final read (1 to 7 bytes)
still produces a record, taking byte 4 from the stale buffer when fewer
than 5 fresh bytes arrived. -/
def decodeLoop (prev4 : Nat) : List Nat → Except DecodeErr (List Panel)
  | [] => Except.ok []
  | b0 :: _ :: _ :: _ :: b4 :: _ :: _ :: _ :: rest =>
    match PanelKind.fromByte b0 with
    | Option.none => Except.error (DecodeErr.unknownKind b0)
    | Option.some k =>
      match decodeLoop b4 rest with
      | Except.ok ps => Except.ok (Panel.from_internal k b4 :: ps)
      | Except.error e => Except.error e
  | [b0] =>
    match PanelKind.fromByte b0 with
    | Option.none => Except.error (DecodeErr.unknownKind b0)
    | Option.some k => Except.ok [Panel.from_internal k prev4]
  | [b0, _] =>
    match PanelKind.fromByte b0 with
    | Option.none => Except.error (DecodeErr.unknownKind b0)
    | Option.some k => Except.ok [Panel.from_internal k prev4]
  | [b0, _, _] =>
    match PanelKind.fromByte b0 with
    | Option.none => Except.error (DecodeErr.unknownKind b0)
    | Option.some k => Except.ok [Panel.from_internal k prev4]
  | [b0, _, _, _] =>
    match PanelKind.fromByte b0 with
    | Option.none => Except.error (DecodeErr.unknownKind b0)
    | Option.some k => Except.ok [Panel.from_internal k prev4]
  | [b0, _, _, _, b4] =>
    match PanelKind.fromByte b0 with
    | Option.none => Except.error (DecodeErr.unknownKind b0)
    | Option.some k => Except.ok [Panel.from_internal k b4]
  | [b0, _, _, _, b4, _] =>
    match PanelKind.fromByte b0 with
    | Option.none => Except.error (DecodeErr.unknownKind b0)
    | Option.some k => Except.ok [Panel.from_internal k b4]
  | [b0, _, _, _, b4, _, _] =>
    match PanelKind.fromByte b0 with
    | Option.none => Except.error (DecodeErr.unknownKind b0)
    | Option.some k => Except.ok [Panel.from_internal k b4]

/-- Decoding of the `.fld` format (`fld::decode`): the caller supplies the
dimensions; decode the records,
then check the panel count against `width * height`. -/
def decode (dims : Nat × Nat) (l : List Nat) : Except DecodeErr Field :=
  match decodeLoop 0 l with
  | Except.error e => Except.error e
  | Except.ok data =>
    if data.length = dims.1 * dims.2 then
      Except.ok ⟨data, dims.1, dims.2⟩
    else
      Except.error (DecodeErr.invalidSize (dims.1 * dims.2) data.length)

end fld

/-- Bitwise or over a list of byte values. -/
def orList (L : List Nat) : Nat := L.foldr (fun a b => a ||| b) 0

/-- Two byte streams of equal length that agree on every meaningful byte of
the `.fld` record format: indices congruent to 0 or 4 modulo 8 (the kind
byte and the packed exits byte); they may differ only in padding bytes. -/
def samePadding (l1 l2 : List Nat) : Prop :=
  l1.length = l2.length ∧
  ∀ i < l1.length, (i % 8 = 0 ∨ i % 8 = 4) → (l1[i]?).getD 0 = (l2[i]?).getD 0

instance (l1 l2 : List Nat) : Decidable (samePadding l1 l2) := by
  unfold samePadding; infer_instance

/-- A 1x1 field with a single exit-less panel (the offset-at-edge example). -/
def ex11 : Field := ⟨[Panel.new PanelKind.Neutral], 1, 1⟩

/-- A 2x2 field where only panel `(0, 0)` has forward exit East
(the backtrack-correctness example). -/
def ex22 : Field :=
  ⟨[{ kind := PanelKind.Neutral, exits := Exits.EAST, exits_backtrack := Exits.none },
    Panel.new PanelKind.Neutral,
    Panel.new PanelKind.Neutral,
    Panel.new PanelKind.Neutral], 2, 2⟩

/-- The 2x1 field `[Panel(Home, exits=East), Panel(Neutral, exits=West)]`
(the fldx end-to-end example). -/
def ex21 : Field :=
  ⟨[{ kind := PanelKind.Home, exits := Exits.EAST, exits_backtrack := Exits.none },
    { kind := PanelKind.Neutral, exits := Exits.WEST, exits_backtrack := Exits.none }], 2, 1⟩

deriving instance DecidableEq for Except

/-! ## Bit-packing of the exits byte -/

theorem nibble_unpack_pack : ∀ e < 16, ∀ b < 16,
    (((b <<< 4) % 256) ||| e) &&& 0xF = e ∧
    ((((b <<< 4) % 256) ||| e) >>> 4) &&& 0xF = b := by decide

theorem pack_unpack_panel (p : Panel) (hp : p.valid) :
    Panel.from_internal p.kind p.exits_internal = p := by
  obtain ⟨kind, ⟨e⟩, ⟨b⟩⟩ := p
  obtain ⟨he, hb⟩ := hp
  have h := nibble_unpack_pack e he b hb
  simp only [Panel.from_internal, Panel.exits_internal] at *
  rw [Panel.mk.injEq]
  refine ⟨rfl, ?_, ?_⟩
  · rw [Exits.mk.injEq]; exact h.1
  · rw [Exits.mk.injEq]; exact h.2

/-- C6: packing a valid panel's two exit sets into the internal byte and
unpacking it reproduces the panel exactly (same kind, exits and
exits_backtrack). -/
theorem claim6_pack_unpack (p : Panel) (hp : p.valid) :
    Panel.from_internal p.kind p.exits_internal = p :=
  pack_unpack_panel p hp

/-- Witness for C6 at a concrete valid panel. -/
theorem claim6_witness :
    Panel.from_internal
      (Panel.mk PanelKind.Home ⟨4⟩ ⟨9⟩).kind
      (Panel.mk PanelKind.Home ⟨4⟩ ⟨9⟩).exits_internal
    = Panel.mk PanelKind.Home ⟨4⟩ ⟨9⟩ :=
  claim6_pack_unpack (Panel.mk PanelKind.Home ⟨4⟩ ⟨9⟩) (by decide)

/-! ## Relative offsetting -/

theorem offset_common_spec (f : Field) (x y : Nat) (xo yo : Int) :
    offset_common f x y xo yo =
      if 0 ≤ (x : Int) + xo ∧ 0 ≤ (y : Int) + yo ∧
         ((x : Int) + xo).toNat < f.width ∧ ((y : Int) + yo).toNat < f.height then
        Option.some (((x : Int) + xo).toNat, ((y : Int) + yo).toNat)
      else Option.none := by
  unfold offset_common
  split_ifs <;> first | rfl | tauto

theorem offset_common_eq_some (f : Field) (x y : Nat) (xo yo : Int) (c d : Nat) :
    offset_common f x y xo yo = Option.some (c, d) ↔
      ((x : Int) + xo = c ∧ (y : Int) + yo = d ∧ c < f.width ∧ d < f.height) := by
  rw [offset_common_spec]
  split_ifs with h
  · simp only [Option.some.injEq, Prod.mk.injEq]
    omega
  · simp only [false_iff]  -- none = some is absurd; show the rhs fails
    intro hc
    apply h
    omega

/-- C3: `offset(dx,dy)` on an accessor at `(x,y)` computes `(x+dx, y+dy)` in
signed arithmetic, and yields the new position exactly when it is inside
`[0,width) x [0,height)`; otherwise it returns the original accessor as the
recoverable `Err` variant. -/
theorem claim3_offset (f : Field) (x y : Nat) (dx dy : Int)
    (hx : x < f.width) (hy : y < f.height) :
    offsetRef f x y dx dy =
      if 0 ≤ (x : Int) + dx ∧ (x : Int) + dx < (f.width : Int) ∧
         0 ≤ (y : Int) + dy ∧ (y : Int) + dy < (f.height : Int) then
        Except.ok (((x : Int) + dx).toNat, ((y : Int) + dy).toNat)
      else Except.error (x, y) := by
  unfold offsetRef
  rw [offset_common_spec]
  by_cases h : 0 ≤ (x : Int) + dx ∧ 0 ≤ (y : Int) + dy ∧
      ((x : Int) + dx).toNat < f.width ∧ ((y : Int) + dy).toNat < f.height
  · rw [if_pos h, if_pos (by omega)]
  · rw [if_neg h, if_neg (by omega)]

/-- Witness for C3: on a 1x1 field, `offset(1,0)` from the only panel is the
stayed-put error variant carrying the original position. -/
theorem claim3_witness : offsetRef ex11 0 0 1 0 = Except.error (0, 0) := by
  have h := claim3_offset ex11 0 0 1 0 (by decide) (by decide)
  rw [h]
  decide

/-! ## Codec support lemmas -/

theorem kindByte_roundtrip (k : PanelKind) :
    PanelKind.fromByte k.toByte = Option.some k := by
  cases k <;> rfl

theorem readU16_u16le (n : Nat) (rest : List Nat) :
    readU16 (u16le n ++ rest) = Except.ok (n % 65536, rest) := by
  have h : n % 256 + 256 * (n / 256 % 256) = n % 65536 := by omega
  simp [u16le, readU16, h]

theorem fldx_decodeLoop_encode (ps : List Panel) (prev : Nat) :
    fldx.decodeLoop prev (ps.flatMap fldx.encodePanel) =
      Except.ok (ps.map (fun p => Panel.from_internal p.kind p.exits_internal)) := by
  induction ps generalizing prev with
  | nil => rfl
  | cons p t ih =>
    rw [List.flatMap_cons]
    show fldx.decodeLoop prev
        (p.kind.toByte :: p.exits_internal :: t.flatMap fldx.encodePanel) = _
    rw [fldx.decodeLoop, kindByte_roundtrip, ih]
    rfl

theorem fld_decodeLoop_encode (ps : List Panel) (prev4 : Nat) :
    fld.decodeLoop prev4 (ps.flatMap fld.encodePanel) =
      Except.ok (ps.map (fun p => Panel.from_internal p.kind p.exits_internal)) := by
  induction ps generalizing prev4 with
  | nil => rfl
  | cons p t ih =>
    rw [List.flatMap_cons]
    show fld.decodeLoop prev4
        (p.kind.toByte :: 0 :: 0 :: 0 :: p.exits_internal :: 0 :: 0 :: 0 ::
          t.flatMap fld.encodePanel) = _
    rw [fld.decodeLoop, kindByte_roundtrip, ih]
    rfl

theorem map_from_internal_valid (ps : List Panel) (h : ∀ p ∈ ps, p.valid) :
    ps.map (fun p => Panel.from_internal p.kind p.exits_internal) = ps := by
  induction ps with
  | nil => rfl
  | cons p t ih =>
    rw [List.map_cons, pack_unpack_panel p (h p (List.mem_cons_self p t)),
      ih (fun q hq => h q (List.mem_cons_of_mem p hq))]

/-! ## Row-major iteration and the flat panel buffer -/

theorem range_map_getD {α : Type} (l : List α) (d : α) (s : Nat) :
    ∀ w, s + w ≤ l.length →
    (List.range w).map (fun x => (l[s + x]?).getD d) = (l.drop s).take w := by
  intro w
  induction w with
  | zero => intro _; simp
  | succ n ih =>
    intro h
    rw [List.range_succ, List.map_append, ih (by omega)]
    simp only [List.map_cons, List.map_nil]
    rw [List.take_succ]
    congr 1
    rw [List.getElem?_drop]
    rw [List.getElem?_eq_getElem (by omega : s + n < l.length)]
    rfl

theorem flatMap_rows {α : Type} (l : List α) (d : α) (w : Nat) :
    ∀ h, h * w ≤ l.length →
    (List.range h).flatMap
      (fun y => (List.range w).map (fun x => (l[y * w + x]?).getD d)) =
      l.take (h * w) := by
  intro h
  induction h with
  | zero => intro _; simp
  | succ n ih =>
    intro hle
    have hle' : n * w + w ≤ l.length := by
      have := hle; rw [Nat.succ_mul] at this; exact this
    rw [List.range_succ, List.flatMap_append, ih (by omega)]
    simp only [List.flatMap_cons, List.flatMap_nil, List.append_nil]
    rw [range_map_getD l d (n * w) w hle']
    rw [Nat.succ_mul, List.take_add]

theorem map_positions_getP (f : Field) (hwf : f.wf) :
    f.positions.map (fun q => f.getP q.1 q.2) = f.data := by
  unfold Field.positions Field.getP
  rw [List.map_flatMap]
  simp only [List.map_map, Function.comp_def]
  have hle : f.height * f.width ≤ f.data.length := by
    rw [hwf, Nat.mul_comm]
  rw [flatMap_rows f.data (Panel.new PanelKind.Empty) f.width f.height hle]
  rw [show f.height * f.width = f.data.length by rw [hwf, Nat.mul_comm]]
  exact List.take_length f.data

theorem encode_body (f : Field) (hwf : f.wf) (enc : Panel → List Nat) :
    (f.positions.map (fun q => enc (f.getP q.1 q.2))).flatten = f.data.flatMap enc := by
  have h1 : f.positions.map (fun q => enc (f.getP q.1 q.2)) =
      (f.positions.map (fun q => f.getP q.1 q.2)).map enc := by
    rw [List.map_map]; rfl
  rw [h1, map_positions_getP f hwf]
  rfl

theorem flatMap_const_length {α : Type} (enc : α → List Nat) (k : Nat)
    (hk : ∀ a, (enc a).length = k) (l : List α) :
    (l.flatMap enc).length = k * l.length := by
  induction l with
  | nil => simp
  | cons a t ih =>
    rw [List.flatMap_cons, List.length_append, hk, ih, List.length_cons, Nat.mul_succ]
    ring

theorem flatMap_const_drop {α : Type} (enc : α → List Nat) (k : Nat)
    (hk : ∀ a, (enc a).length = k) :
    ∀ (j : Nat) (l : List α), (l.flatMap enc).drop (k * j) = (l.drop j).flatMap enc := by
  intro j
  induction j with
  | zero => intro l; simp
  | succ n ih =>
    intro l
    cases l with
    | nil => simp
    | cons a t =>
      rw [List.flatMap_cons, List.drop_succ_cons]
      have h1 : (enc a ++ t.flatMap enc).drop k = t.flatMap enc := by
        rw [← hk a]; exact List.drop_left _ _
      rw [Nat.mul_succ, Nat.add_comm, ← List.drop_drop, h1, ih t]

theorem flatMap_const_record {α : Type} (enc : α → List Nat) (k : Nat)
    (hk : ∀ a, (enc a).length = k) (l : List α) (j : Nat) (pj : α)
    (hj : l[j]? = Option.some pj) :
    ((l.flatMap enc).drop (k * j)).take k = enc pj := by
  rw [flatMap_const_drop enc k hk j l]
  have hlt : j < l.length := by
    by_contra hge
    rw [List.getElem?_eq_none (by omega)] at hj
    exact Option.noConfusion hj
  rw [List.drop_eq_getElem_cons hlt, List.flatMap_cons]
  have hval : l[j] = pj := by
    rw [List.getElem?_eq_getElem hlt] at hj
    exact Option.some.inj hj
  rw [hval, ← hk pj]
  exact List.take_left _ _

/-! ## Decoding an encoded stream -/

theorem fldx_decode_encoded (w h : Nat) (ps : List Panel) :
    fldx.decode (u16le w ++ u16le h ++ ps.flatMap fldx.encodePanel) =
      (if ps.length = w % 65536 * (h % 65536) then
        Except.ok ⟨ps.map (fun p => Panel.from_internal p.kind p.exits_internal),
          w % 65536, h % 65536⟩
      else
        Except.error (DecodeErr.invalidSize (w % 65536 * (h % 65536)) ps.length)) := by
  unfold fldx.decode
  simp only [List.append_assoc, readU16_u16le, fldx_decodeLoop_encode, List.length_map]

theorem fld_decode_encoded (dims : Nat × Nat) (ps : List Panel) :
    fld.decode dims (ps.flatMap fld.encodePanel) =
      (if ps.length = dims.1 * dims.2 then
        Except.ok ⟨ps.map (fun p => Panel.from_internal p.kind p.exits_internal),
          dims.1, dims.2⟩
      else
        Except.error (DecodeErr.invalidSize (dims.1 * dims.2) ps.length)) := by
  unfold fld.decode
  simp only [fld_decodeLoop_encode, List.length_map]

/-- C1 (amended): decode-of-encode is the identity for `.fld` with matching
dimensions, always; for `.fldx` it is the identity whenever the dimensions
fit the 16-bit header fields. -/
theorem claim1_codec_roundtrip (f : Field) (hwf : f.wf) (hv : f.validPanels) :
    fld.decode (f.width, f.height) (fld.encode f) = Except.ok f ∧
    (f.width < 65536 → f.height < 65536 →
      fldx.decode (fldx.encode f) = Except.ok f) := by
  have hwf1 : f.data.length = (f.width, f.height).1 * (f.width, f.height).2 := hwf
  have hwf2 : f.data.length = f.width * f.height := hwf
  constructor
  · unfold fld.encode
    rw [encode_body f hwf fld.encodePanel, fld_decode_encoded,
      map_from_internal_valid f.data hv, if_pos hwf1]
  · intro hw hh
    unfold fldx.encode
    rw [encode_body f hwf fldx.encodePanel, fldx_decode_encoded,
      Nat.mod_eq_of_lt hw, Nat.mod_eq_of_lt hh,
      map_from_internal_valid f.data hv, if_pos hwf2]

/-- Witness for C1 at the concrete 2x1 example field. -/
theorem claim1_witness :
    fld.decode (ex21.width, ex21.height) (fld.encode ex21) = Except.ok ex21 ∧
    fldx.decode (fldx.encode ex21) = Except.ok ex21 := by
  have h := claim1_codec_roundtrip ex21 (by decide) (by decide)
  exact ⟨h.1, h.2 (by decide) (by decide)⟩

/-- Counterexample to C1 as stated: a Field whose width does not fit in the
16-bit `.fldx` header round-trips to a different Field (the header is
written as `width as u16`, truncating 65536 to 0). -/
theorem claim1_counterexample :
    (Field.mk [] 65536 0).wf ∧
    fldx.decode (fldx.encode (Field.mk [] 65536 0)) ≠
      Except.ok (Field.mk [] 65536 0) ∧
    fldx.decode (fldx.encode (Field.mk [] 65536 0)) =
      Except.ok (Field.mk [] 0 0) := by
  refine ⟨by decide, ?_, ?_⟩ <;> decide

/-! ## The fldx byte layout (C4) -/

/-- C4: `.fldx` output is a 4-byte little-endian width/height header followed
by `width*height` two-byte records `[kind, packed exits]` in row-major
(flat-buffer) order; the 2x1 example encodes to exactly
`02 00 01 00 02 04 01 01` and decodes back to the same field. -/
theorem claim4_fldx_layout :
    (∀ f : Field, f.wf →
      (fldx.encode f).length = 4 + 2 * (f.width * f.height) ∧
      (fldx.encode f).take 4 =
        [f.width % 256, f.width / 256 % 256, f.height % 256, f.height / 256 % 256] ∧
      (∀ j pj, f.data[j]? = Option.some pj →
        ((fldx.encode f).drop (4 + 2 * j)).take 2 = [pj.kind.toByte, pj.exits_internal])) ∧
    fldx.encode ex21 = [0x02, 0x00, 0x01, 0x00, 0x02, 0x04, 0x01, 0x01] ∧
    fldx.decode [0x02, 0x00, 0x01, 0x00, 0x02, 0x04, 0x01, 0x01] = Except.ok ex21 := by
  refine ⟨?_, by decide, by decide⟩
  intro f hwf
  have hk : ∀ p : Panel, (fldx.encodePanel p).length = 2 := fun _ => rfl
  have hshape : fldx.encode f =
      (f.width % 256) :: (f.width / 256 % 256) :: (f.height % 256) ::
        (f.height / 256 % 256) :: f.data.flatMap fldx.encodePanel := by
    unfold fldx.encode
    rw [encode_body f hwf fldx.encodePanel]
    rfl
  refine ⟨?_, ?_, ?_⟩
  · have hwf' : f.data.length = f.width * f.height := hwf
    rw [hshape]
    simp only [List.length_cons, flatMap_const_length fldx.encodePanel 2 hk, hwf']
    generalize f.width * f.height = m
    omega
  · rw [hshape]; rfl
  · intro j pj hj
    rw [hshape]
    have hdrop : ((f.width % 256) :: (f.width / 256 % 256) :: (f.height % 256) ::
        (f.height / 256 % 256) :: f.data.flatMap fldx.encodePanel).drop (4 + 2 * j) =
        (f.data.flatMap fldx.encodePanel).drop (2 * j) := by
      rw [show 4 + 2 * j = 2 * j + 4 by omega]
      rw [show (2 * j + 4) = (2 * j + 3) + 1 from rfl, List.drop_succ_cons]
      rw [show (2 * j + 3) = (2 * j + 2) + 1 from rfl, List.drop_succ_cons]
      rw [show (2 * j + 2) = (2 * j + 1) + 1 from rfl, List.drop_succ_cons]
      rw [show (2 * j + 1) = (2 * j) + 1 from rfl, List.drop_succ_cons]
    rw [hdrop]
    exact flatMap_const_record fldx.encodePanel 2 hk f.data j pj hj

/-- Witness for C4's universally quantified layout part at the example. -/
theorem claim4_witness :
    (fldx.encode ex21).length = 4 + 2 * (ex21.width * ex21.height) ∧
    (fldx.encode ex21).take 4 =
      [ex21.width % 256, ex21.width / 256 % 256,
        ex21.height % 256, ex21.height / 256 % 256] := by
  have h := claim4_fldx_layout.1 ex21 (by decide)
  exact ⟨h.1, h.2.1⟩

/-! ## Unknown kind bytes (C7) -/

theorem fldx_decodeLoop_unknown (prev b : Nat) (rest : List Nat)
    (hb : PanelKind.fromByte b = Option.none) :
    fldx.decodeLoop prev (b :: rest) = Except.error (DecodeErr.unknownKind b) := by
  cases rest <;> simp [fldx.decodeLoop, hb]

theorem fld_decodeLoop_unknown (prev b : Nat) (rest : List Nat)
    (hb : PanelKind.fromByte b = Option.none) :
    fld.decodeLoop prev (b :: rest) = Except.error (DecodeErr.unknownKind b) := by
  rcases rest with _ | ⟨a1, _ | ⟨a2, _ | ⟨a3, _ | ⟨a4, _ | ⟨a5, _ | ⟨a6, _ | ⟨a7, t⟩⟩⟩⟩⟩⟩⟩ <;>
    simp [fld.decodeLoop, hb]

theorem fldx_decodeLoop_append_unknown (ps : List Panel) (prev b : Nat)
    (rest : List Nat) (hb : PanelKind.fromByte b = Option.none) :
    fldx.decodeLoop prev (ps.flatMap fldx.encodePanel ++ b :: rest) =
      Except.error (DecodeErr.unknownKind b) := by
  induction ps generalizing prev with
  | nil => simpa using fldx_decodeLoop_unknown prev b rest hb
  | cons p t ih =>
    rw [List.flatMap_cons, List.append_assoc]
    show fldx.decodeLoop prev
        (p.kind.toByte :: p.exits_internal :: (t.flatMap fldx.encodePanel ++ b :: rest)) = _
    rw [fldx.decodeLoop, kindByte_roundtrip, ih]

theorem fld_decodeLoop_append_unknown (ps : List Panel) (prev b : Nat)
    (rest : List Nat) (hb : PanelKind.fromByte b = Option.none) :
    fld.decodeLoop prev (ps.flatMap fld.encodePanel ++ b :: rest) =
      Except.error (DecodeErr.unknownKind b) := by
  induction ps generalizing prev with
  | nil => simpa using fld_decodeLoop_unknown prev b rest hb
  | cons p t ih =>
    rw [List.flatMap_cons, List.append_assoc]
    show fld.decodeLoop prev
        (p.kind.toByte :: 0 :: 0 :: 0 :: p.exits_internal :: 0 :: 0 :: 0 ::
          (t.flatMap fld.encodePanel ++ b :: rest)) = _
    rw [fld.decodeLoop, kindByte_roundtrip, ih]

/-- C7: in both codecs, a kind byte that maps to no defined `PanelKind`
(first such byte after any number of well-formed records) makes decode fail
with the unknown-kind error carrying that byte, never a fallback kind. -/
theorem claim7_unknown_kind :
    (∀ (w h : Nat) (ps : List Panel) (b : Nat) (rest : List Nat),
      PanelKind.fromByte b = Option.none →
      fldx.decode (u16le w ++ u16le h ++ (ps.flatMap fldx.encodePanel ++ b :: rest)) =
        Except.error (DecodeErr.unknownKind b)) ∧
    (∀ (dims : Nat × Nat) (ps : List Panel) (b : Nat) (rest : List Nat),
      PanelKind.fromByte b = Option.none →
      fld.decode dims (ps.flatMap fld.encodePanel ++ b :: rest) =
        Except.error (DecodeErr.unknownKind b)) := by
  constructor
  · intro w h ps b rest hb
    unfold fldx.decode
    simp only [List.append_assoc, readU16_u16le,
      fldx_decodeLoop_append_unknown ps 0 b rest hb]
  · intro dims ps b rest hb
    unfold fld.decode
    simp only [fld_decodeLoop_append_unknown ps 0 b rest hb]

/-- Witness for C7 with the unassigned byte `0xFF` in both codecs. -/
theorem claim7_witness :
    fldx.decode (u16le 1 ++ u16le 1 ++
        (([] : List Panel).flatMap fldx.encodePanel ++ 0xFF :: [])) =
      Except.error (DecodeErr.unknownKind 0xFF) ∧
    fld.decode (1, 1) (([] : List Panel).flatMap fld.encodePanel ++ 0xFF :: []) =
      Except.error (DecodeErr.unknownKind 0xFF) :=
  ⟨claim7_unknown_kind.1 1 1 [] 0xFF [] (by decide),
    claim7_unknown_kind.2 (1, 1) [] 0xFF [] (by decide)⟩

/-! ## Size mismatches (C8) -/

/-- C8: when the decoded panel count differs from the required
`width*height` (header-declared for `.fldx`, caller-supplied for `.fld`),
decode fails with the size-mismatch error carrying both the expected and
the actual count. -/
theorem claim8_size_mismatch :
    (∀ (w h : Nat) (ps : List Panel), w < 65536 → h < 65536 →
      ps.length ≠ w * h →
      fldx.decode (u16le w ++ u16le h ++ ps.flatMap fldx.encodePanel) =
        Except.error (DecodeErr.invalidSize (w * h) ps.length)) ∧
    (∀ (dims : Nat × Nat) (ps : List Panel), ps.length ≠ dims.1 * dims.2 →
      fld.decode dims (ps.flatMap fld.encodePanel) =
        Except.error (DecodeErr.invalidSize (dims.1 * dims.2) ps.length)) := by
  constructor
  · intro w h ps hw hh hne
    rw [fldx_decode_encoded, Nat.mod_eq_of_lt hw, Nat.mod_eq_of_lt hh, if_neg hne]
  · intro dims ps hne
    rw [fld_decode_encoded, if_neg hne]

/-- Witness for C8: a `.fldx` stream declaring 2x2 but holding only three
records fails with `InvalidSize` expected 4, got 3. -/
theorem claim8_witness :
    fldx.decode (u16le 2 ++ u16le 2 ++
        (List.replicate 3 (Panel.new PanelKind.Neutral)).flatMap fldx.encodePanel) =
      Except.error (DecodeErr.invalidSize 4 3) := by
  have h := claim8_size_mismatch.1 2 2 (List.replicate 3 (Panel.new PanelKind.Neutral))
    (by decide) (by decide) (by decide)
  simpa using h

/-! ## Truncated input (C9) -/

theorem fldx_decodeLoop_no_eof (prev : Nat) (l : List Nat) :
    fldx.decodeLoop prev l ≠ Except.error DecodeErr.unexpectedEof := by
  induction prev, l using fldx.decodeLoop.induct <;> simp_all [fldx.decodeLoop]

/-- C9 (amended): `fldx::decode` fails with `UnexpectedEof` exactly when the
input is shorter than the 4-byte header (fewer than 2 bytes remain for one
of the two header reads); a truncated trailing panel record does not raise
it — the record is decoded using the stale read-buffer byte instead. -/
theorem claim9_eof_amended (l : List Nat) :
    fldx.decode l = Except.error DecodeErr.unexpectedEof ↔ l.length < 4 := by
  rcases l with _ | ⟨b0, _ | ⟨b1, _ | ⟨b2, _ | ⟨b3, t⟩⟩⟩⟩
  · simp [fldx.decode, readU16]
  · simp [fldx.decode, readU16]
  · simp [fldx.decode, readU16]
  · simp [fldx.decode, readU16]
  · simp only [fldx.decode, readU16]
    cases hdl : fldx.decodeLoop 0 t with
    | error e =>
      have hne := fldx_decodeLoop_no_eof 0 t
      simp only [hdl]
      constructor
      · intro hc
        have he : e = DecodeErr.unexpectedEof := by
          injection hc
        rw [he] at hdl
        exact absurd hdl hne
      · intro hc
        simp only [List.length_cons] at hc
        omega
    | ok data =>
      simp only [hdl]
      split <;> constructor <;> intro hc <;>
        first
          | exact absurd hc (by simp)
          | (simp only [List.length_cons] at hc; omega)

/-- Witness for C9's amended characterization at a 3-byte input. -/
theorem claim9_witness : fldx.decode [2, 0, 1] = Except.error DecodeErr.unexpectedEof :=
  (claim9_eof_amended [2, 0, 1]).mpr (by decide)

/-- Counterexample to C9 as stated: a stream whose trailing panel record has
only one of its two bytes decodes successfully (the stale buffer supplies
the second byte) instead of failing with `UnexpectedEof`. -/
theorem claim9_counterexample :
    fldx.decode [2, 0, 1, 0, 1, 1, 1] =
      Except.ok ⟨[⟨PanelKind.Neutral, ⟨1⟩, ⟨0⟩⟩, ⟨PanelKind.Neutral, ⟨1⟩, ⟨0⟩⟩], 2, 1⟩ ∧
    fldx.decode [2, 0, 1, 0, 1, 1, 1] ≠ Except.error DecodeErr.unexpectedEof := by
  constructor <;> decide

/-! ## The fld byte layout and padding bytes (C5) -/

theorem exists_eight (l : List Nat) (h : 8 ≤ l.length) :
    ∃ a0 a1 a2 a3 a4 a5 a6 a7 t,
      l = a0 :: a1 :: a2 :: a3 :: a4 :: a5 :: a6 :: a7 :: t := by
  rcases l with _ | ⟨a0, _ | ⟨a1, _ | ⟨a2, _ | ⟨a3, _ | ⟨a4, _ | ⟨a5, _ | ⟨a6, _ | ⟨a7, t⟩⟩⟩⟩⟩⟩⟩⟩ <;>
    first
      | exact ⟨_, _, _, _, _, _, _, _, _, rfl⟩
      | simp at h

theorem fld_decodeLoop_short (prev : Nat) (l : List Nat) (h1 : 1 ≤ l.length)
    (h7 : l.length ≤ 7) :
    fld.decodeLoop prev l =
      (match PanelKind.fromByte ((l[0]?).getD 0) with
      | Option.none => Except.error (DecodeErr.unknownKind ((l[0]?).getD 0))
      | Option.some k =>
        Except.ok [Panel.from_internal k
          (if 5 ≤ l.length then (l[4]?).getD 0 else prev)]) := by
  rcases l with _ | ⟨a0, _ | ⟨a1, _ | ⟨a2, _ | ⟨a3, _ | ⟨a4, _ | ⟨a5, _ | ⟨a6, _ | ⟨a7, t⟩⟩⟩⟩⟩⟩⟩⟩
  · simp only [List.length_nil] at h1; omega
  · rfl
  · rfl
  · rfl
  · rfl
  · rfl
  · rfl
  · rfl
  · simp only [List.length_cons] at h7; omega

theorem fld_decodeLoop_padding :
    ∀ (n : Nat) (l1 l2 : List Nat) (prev : Nat),
      l1.length = n → l2.length = n →
      (∀ i < n, (i % 8 = 0 ∨ i % 8 = 4) → (l1[i]?).getD 0 = (l2[i]?).getD 0) →
      fld.decodeLoop prev l1 = fld.decodeLoop prev l2 := by
  intro n
  induction n using Nat.strong_induction_on with
  | _ n ih =>
    intro l1 l2 prev h1 h2 hag
    rcases Nat.eq_zero_or_pos n with hn0 | hpos
    · subst hn0
      rw [List.length_eq_zero] at h1 h2
      rw [h1, h2]
    by_cases hn8 : n < 8
    · rw [fld_decodeLoop_short prev l1 (by omega) (by omega),
        fld_decodeLoop_short prev l2 (by omega) (by omega)]
      rw [h1, h2]
      rw [hag 0 (by omega) (Or.inl rfl)]
      by_cases h5 : 5 ≤ n
      · rw [hag 4 (by omega) (Or.inr rfl)]
      · rw [if_neg h5, if_neg h5]
    · obtain ⟨a0, a1, a2, a3, a4, a5, a6, a7, t1, rfl⟩ := exists_eight l1 (by omega)
      obtain ⟨b0, b1, b2, b3, b4, b5, b6, b7, t2, rfl⟩ := exists_eight l2 (by omega)
      simp only [List.length_cons] at h1 h2
      have h0 := hag 0 (by omega) (Or.inl rfl)
      have h4 := hag 4 (by omega) (Or.inr rfl)
      simp only [List.getElem?_cons_zero, List.getElem?_cons_succ, Option.getD_some]
        at h0 h4
      subst h0 h4
      have hrec : fld.decodeLoop a4 t1 = fld.decodeLoop a4 t2 := by
        apply ih (n - 8) (by omega) t1 t2 a4 (by omega) (by omega)
        intro i hi hcond
        have hmain := hag (i + 8) (by omega) (by omega)
        rw [show i + 8 = 8 + i by omega] at hmain
        have e1 : (a0 :: a1 :: a2 :: a3 :: a4 :: a5 :: a6 :: a7 :: t1 :
            List Nat)[8 + i]? = t1[i]? := by
          rw [← List.getElem?_drop]
          rfl
        have e2 : (a0 :: b1 :: b2 :: b3 :: a4 :: b5 :: b6 :: b7 :: t2 :
            List Nat)[8 + i]? = t2[i]? := by
          rw [← List.getElem?_drop]
          rfl
        rw [e1, e2] at hmain
        exact hmain
      simp only [fld.decodeLoop]
      rw [hrec]

/-- C5: `.fld` output is exactly `width*height` 8-byte records
`[kind, 0, 0, 0, exits, 0, 0, 0]` in row-major (flat-buffer) order, and
decode reads only bytes 0 and 4 of each record: two streams differing only
in padding bytes decode identically. -/
theorem claim5_fld_layout_padding :
    (∀ f : Field, f.wf →
      (fld.encode f).length = 8 * (f.width * f.height) ∧
      (∀ j pj, f.data[j]? = Option.some pj →
        ((fld.encode f).drop (8 * j)).take 8 =
          [pj.kind.toByte, 0, 0, 0, pj.exits_internal, 0, 0, 0])) ∧
    (∀ (dims : Nat × Nat) (l1 l2 : List Nat), samePadding l1 l2 →
      fld.decode dims l1 = fld.decode dims l2) := by
  constructor
  · intro f hwf
    have hwf' : f.data.length = f.width * f.height := hwf
    have hk : ∀ p : Panel, (fld.encodePanel p).length = 8 := fun _ => rfl
    have hshape : fld.encode f = f.data.flatMap fld.encodePanel := by
      unfold fld.encode
      exact encode_body f hwf fld.encodePanel
    constructor
    · rw [hshape, flatMap_const_length fld.encodePanel 8 hk, hwf']
    · intro j pj hj
      rw [hshape]
      exact flatMap_const_record fld.encodePanel 8 hk f.data j pj hj
  · intro dims l1 l2 hsp
    obtain ⟨hlen, hag⟩ := hsp
    unfold fld.decode
    rw [fld_decodeLoop_padding l1.length l1 l2 0 rfl hlen.symm hag]

/-- Witness for C5: the 2x1 example's record layout, and two concrete
streams differing only in padding bytes decoding identically. -/
theorem claim5_witness :
    (fld.encode ex21).length = 8 * (ex21.width * ex21.height) ∧
    fld.decode (2, 1) [2, 0, 0, 0, 4, 0, 0, 0, 1, 0, 0, 0, 1, 0, 0, 0] =
      fld.decode (2, 1) [2, 9, 9, 9, 4, 9, 9, 9, 1, 9, 9, 9, 1, 9, 9, 9] := by
  constructor
  · exact (claim5_fld_layout_padding.1 ex21 (by decide)).1
  · exact claim5_fld_layout_padding.2 (2, 1) _ _ (by decide)

/-! ## Backtrack reconstruction: flat-index arithmetic -/

theorem idx_lt (x y w h : Nat) (hx : x < w) (hy : y < h) : y * w + x < w * h := by
  have h1 : y * w + x < (y + 1) * w := by rw [Nat.succ_mul]; omega
  have h2 : (y + 1) * w ≤ h * w := Nat.mul_le_mul_right w hy
  calc y * w + x < (y + 1) * w := h1
    _ ≤ h * w := h2
    _ = w * h := Nat.mul_comm h w

theorem idx_inj (w qa x qb y : Nat) (ha : qa < w) (hx : x < w)
    (h : qb * w + qa = y * w + x) : qa = x ∧ qb = y := by
  have hw : 0 < w := Nat.lt_of_le_of_lt (Nat.zero_le qa) ha
  have h1 : (qb * w + qa) % w = qa := by
    rw [Nat.mul_comm qb w, Nat.mul_add_mod]
    exact Nat.mod_eq_of_lt ha
  have h2 : (y * w + x) % w = x := by
    rw [Nat.mul_comm y w, Nat.mul_add_mod]
    exact Nat.mod_eq_of_lt hx
  have hax : qa = x := by rw [← h1, ← h2, h]
  refine ⟨hax, ?_⟩
  rw [hax] at h
  exact Nat.eq_of_mul_eq_mul_right hw (Nat.add_right_cancel h)

/-! ## Backtrack reconstruction: the single-panel update -/

theorem orBacktrack_getP (g : Field) (a b : Nat) (d : Exits) (x y : Nat) :
    (g.orBacktrack a b d).getP x y =
      (if b * g.width + a = y * g.width + x ∧ b * g.width + a < g.data.length then
        { g.getP x y with
          exits_backtrack := Exits.or (g.getP x y).exits_backtrack d }
      else g.getP x y) := by
  simp only [Field.orBacktrack, Field.getP]
  rw [List.getElem?_set]
  by_cases h1 : b * g.width + a = y * g.width + x
  · rw [if_pos h1]
    by_cases h2 : b * g.width + a < g.data.length
    · rw [if_pos h2, if_pos ⟨h1, h2⟩, h1]
      exact Option.getD_some
    · rw [if_neg h2, if_neg (fun hc => h2 hc.2)]
      rw [List.getElem?_eq_none (by omega)]
  · rw [if_neg h1, if_neg (fun hc => h1 hc.1)]

theorem orBacktrack_width (g : Field) (a b : Nat) (d : Exits) :
    (g.orBacktrack a b d).width = g.width := rfl

theorem orBacktrack_height (g : Field) (a b : Nat) (d : Exits) :
    (g.orBacktrack a b d).height = g.height := rfl

theorem orBacktrack_length (g : Field) (a b : Nat) (d : Exits) :
    (g.orBacktrack a b d).data.length = g.data.length := by
  simp [Field.orBacktrack]

/-! ## Backtrack reconstruction: one direction case -/

theorem dirStep_width (d : Exits) (xo yo : Int) (opp : Exits)
    (g : Field) (px py : Nat) :
    (Field.dirStep d xo yo opp g px py).width = g.width := by
  unfold Field.dirStep
  split <;> first | rfl | (split <;> rfl)

theorem dirStep_height (d : Exits) (xo yo : Int) (opp : Exits)
    (g : Field) (px py : Nat) :
    (Field.dirStep d xo yo opp g px py).height = g.height := by
  unfold Field.dirStep
  split <;> first | rfl | (split <;> rfl)

theorem dirStep_length (d : Exits) (xo yo : Int) (opp : Exits)
    (g : Field) (px py : Nat) :
    (Field.dirStep d xo yo opp g px py).data.length = g.data.length := by
  unfold Field.dirStep
  split <;> first | rfl | (split <;> first | rfl | exact orBacktrack_length _ _ _ _)

theorem dirStep_getP_exits (d : Exits) (xo yo : Int) (opp : Exits)
    (g : Field) (px py x y : Nat) :
    ((Field.dirStep d xo yo opp g px py).getP x y).exits = (g.getP x y).exits := by
  unfold Field.dirStep
  split
  · split
    · rw [orBacktrack_getP]
      split <;> rfl
    · rfl
  · rfl

theorem dirStep_getP_kind (d : Exits) (xo yo : Int) (opp : Exits)
    (g : Field) (px py x y : Nat) :
    ((Field.dirStep d xo yo opp g px py).getP x y).kind = (g.getP x y).kind := by
  unfold Field.dirStep
  split
  · split
    · rw [orBacktrack_getP]
      split <;> rfl
    · rfl
  · rfl

theorem offset_common_congr (g f : Field) (hw : g.width = f.width)
    (hh : g.height = f.height) (a b : Nat) (xo yo : Int) :
    offset_common g a b xo yo = offset_common f a b xo yo := by
  unfold offset_common
  rw [hw, hh]

theorem dirStep_backtrack_val (d : Exits) (xo yo : Int) (opp : Exits)
    (g : Field) (px py x y : Nat)
    (hlen : g.data.length = g.width * g.height)
    (hx : x < g.width) (hy : y < g.height) :
    ((Field.dirStep d xo yo opp g px py).getP x y).exits_backtrack.val =
      (g.getP x y).exits_backtrack.val |||
        (if (g.getP px py).exits.has d ∧
            offset_common g px py xo yo = Option.some (x, y)
         then opp.val else 0) := by
  unfold Field.dirStep
  by_cases hhas : (g.getP px py).exits.has d
  · rw [if_pos hhas]
    cases hoc : offset_common g px py xo yo with
    | none =>
      rw [if_neg (by rintro ⟨-, hcontra⟩; exact Option.noConfusion hcontra)]
      rw [Nat.or_zero]
    | some q =>
      obtain ⟨qa, qb⟩ := q
      have hb := (offset_common_eq_some g px py xo yo qa qb).mp hoc
      rw [orBacktrack_getP]
      by_cases heq : qa = x ∧ qb = y
      · obtain ⟨rfl, rfl⟩ := heq
        rw [if_pos ⟨rfl, by rw [hlen]; exact idx_lt qa qb g.width g.height hb.2.2.1 hb.2.2.2⟩]
        rw [if_pos ⟨hhas, rfl⟩]
        rfl
      · rw [if_neg (fun hc => heq (idx_inj g.width qa x qb y hb.2.2.1 hx hc.1))]
        rw [if_neg (by
          rintro ⟨-, hcontra⟩
          simp only [Option.some.injEq, Prod.mk.injEq] at hcontra
          exact heq hcontra)]
        rw [Nat.or_zero]
  · rw [if_neg hhas]
    rw [if_neg (fun hc => hhas hc.1)]
    rw [Nat.or_zero]

theorem dirStep_backtrack_val_rel (d : Exits) (xo yo : Int) (opp : Exits)
    (g f : Field) (px py x y : Nat)
    (hw : g.width = f.width) (hh : g.height = f.height)
    (hlen : g.data.length = f.width * f.height)
    (hex : ∀ a b, (g.getP a b).exits = (f.getP a b).exits)
    (hx : x < f.width) (hy : y < f.height) :
    ((Field.dirStep d xo yo opp g px py).getP x y).exits_backtrack.val =
      (g.getP x y).exits_backtrack.val |||
        (if (f.getP px py).exits.has d ∧
            offset_common f px py xo yo = Option.some (x, y)
         then opp.val else 0) := by
  rw [dirStep_backtrack_val d xo yo opp g px py x y
    (by rw [hw, hh]; exact hlen) (by rw [hw]; exact hx) (by rw [hh]; exact hy)]
  rw [hex px py, offset_common_congr g f hw hh px py xo yo]

/-! ## Backtrack reconstruction: the four-direction loop body -/

theorem buildStep_width (g : Field) (q : Nat × Nat) :
    (Field.buildStep g q).width = g.width := by
  simp only [Field.buildStep]
  rw [dirStep_width, dirStep_width, dirStep_width, dirStep_width]

theorem buildStep_height (g : Field) (q : Nat × Nat) :
    (Field.buildStep g q).height = g.height := by
  simp only [Field.buildStep]
  rw [dirStep_height, dirStep_height, dirStep_height, dirStep_height]

theorem buildStep_length (g : Field) (q : Nat × Nat) :
    (Field.buildStep g q).data.length = g.data.length := by
  simp only [Field.buildStep]
  rw [dirStep_length, dirStep_length, dirStep_length, dirStep_length]

theorem buildStep_getP_exits (g : Field) (q : Nat × Nat) (x y : Nat) :
    ((Field.buildStep g q).getP x y).exits = (g.getP x y).exits := by
  simp only [Field.buildStep]
  rw [dirStep_getP_exits, dirStep_getP_exits, dirStep_getP_exits, dirStep_getP_exits]

theorem buildStep_getP_kind (g : Field) (q : Nat × Nat) (x y : Nat) :
    ((Field.buildStep g q).getP x y).kind = (g.getP x y).kind := by
  simp only [Field.buildStep]
  rw [dirStep_getP_kind, dirStep_getP_kind, dirStep_getP_kind, dirStep_getP_kind]

theorem dirStep_rel (d : Exits) (xo yo : Int) (opp : Exits) (g f : Field) (px py : Nat)
    (h : g.width = f.width ∧ g.height = f.height ∧
      g.data.length = f.width * f.height ∧
      ∀ a b, (g.getP a b).exits = (f.getP a b).exits) :
    (Field.dirStep d xo yo opp g px py).width = f.width ∧
    (Field.dirStep d xo yo opp g px py).height = f.height ∧
    (Field.dirStep d xo yo opp g px py).data.length = f.width * f.height ∧
    ∀ a b, ((Field.dirStep d xo yo opp g px py).getP a b).exits = (f.getP a b).exits := by
  obtain ⟨hw, hh, hlen, hex⟩ := h
  exact ⟨by rw [dirStep_width]; exact hw, by rw [dirStep_height]; exact hh,
    by rw [dirStep_length]; exact hlen,
    fun a b => by rw [dirStep_getP_exits]; exact hex a b⟩

theorem buildStep_backtrack_val_rel (f g : Field) (q : Nat × Nat) (x y : Nat)
    (hw : g.width = f.width) (hh : g.height = f.height)
    (hlen : g.data.length = f.width * f.height)
    (hex : ∀ a b, (g.getP a b).exits = (f.getP a b).exits)
    (hx : x < f.width) (hy : y < f.height) :
    ((Field.buildStep g q).getP x y).exits_backtrack.val =
      (g.getP x y).exits_backtrack.val ||| contrib f x y q := by
  have h1 := dirStep_rel Exits.SOUTH 0 (-1) Exits.NORTH g f q.1 q.2 ⟨hw, hh, hlen, hex⟩
  have h2 := dirStep_rel Exits.NORTH 0 1 Exits.SOUTH _ f q.1 q.2 h1
  have h3 := dirStep_rel Exits.WEST (-1) 0 Exits.EAST _ f q.1 q.2 h2
  simp only [Field.buildStep]
  rw [dirStep_backtrack_val_rel Exits.EAST 1 0 Exits.WEST _ f q.1 q.2 x y
    h3.1 h3.2.1 h3.2.2.1 h3.2.2.2 hx hy]
  rw [dirStep_backtrack_val_rel Exits.WEST (-1) 0 Exits.EAST _ f q.1 q.2 x y
    h2.1 h2.2.1 h2.2.2.1 h2.2.2.2 hx hy]
  rw [dirStep_backtrack_val_rel Exits.NORTH 0 1 Exits.SOUTH _ f q.1 q.2 x y
    h1.1 h1.2.1 h1.2.2.1 h1.2.2.2 hx hy]
  rw [dirStep_backtrack_val_rel Exits.SOUTH 0 (-1) Exits.NORTH g f q.1 q.2 x y
    hw hh hlen hex hx hy]
  simp only [contrib, Nat.lor_assoc]

/-! ## Backtrack reconstruction: the full fold -/

theorem foldl_buildStep_width (L : List (Nat × Nat)) :
    ∀ g : Field, (List.foldl Field.buildStep g L).width = g.width := by
  induction L with
  | nil => intro g; rfl
  | cons q L ih => intro g; rw [List.foldl_cons, ih, buildStep_width]

theorem foldl_buildStep_height (L : List (Nat × Nat)) :
    ∀ g : Field, (List.foldl Field.buildStep g L).height = g.height := by
  induction L with
  | nil => intro g; rfl
  | cons q L ih => intro g; rw [List.foldl_cons, ih, buildStep_height]

theorem foldl_buildStep_getP_exits (L : List (Nat × Nat)) (a b : Nat) :
    ∀ g : Field, ((List.foldl Field.buildStep g L).getP a b).exits = (g.getP a b).exits := by
  induction L with
  | nil => intro g; rfl
  | cons q L ih => intro g; rw [List.foldl_cons, ih, buildStep_getP_exits]

theorem foldl_buildStep_getP_kind (L : List (Nat × Nat)) (a b : Nat) :
    ∀ g : Field, ((List.foldl Field.buildStep g L).getP a b).kind = (g.getP a b).kind := by
  induction L with
  | nil => intro g; rfl
  | cons q L ih => intro g; rw [List.foldl_cons, ih, buildStep_getP_kind]

theorem foldl_buildStep_val (f : Field) (x y : Nat) (hx : x < f.width) (hy : y < f.height) :
    ∀ (L : List (Nat × Nat)) (g : Field),
      g.width = f.width → g.height = f.height →
      g.data.length = f.width * f.height →
      (∀ a b, (g.getP a b).exits = (f.getP a b).exits) →
      ((List.foldl Field.buildStep g L).getP x y).exits_backtrack.val =
        (g.getP x y).exits_backtrack.val ||| orList (L.map (contrib f x y)) := by
  intro L
  induction L with
  | nil =>
    intro g _ _ _ _
    simp only [List.foldl_nil, List.map_nil]
    exact (Nat.or_zero _).symm
  | cons q L ih =>
    intro g hw hh hlen hex
    rw [List.foldl_cons]
    rw [ih (Field.buildStep g q) (by rw [buildStep_width]; exact hw)
      (by rw [buildStep_height]; exact hh) (by rw [buildStep_length]; exact hlen)
      (fun a b => by rw [buildStep_getP_exits]; exact hex a b)]
    rw [buildStep_backtrack_val_rel f g q x y hw hh hlen hex hx hy]
    rw [Nat.lor_assoc, List.map_cons]
    rfl

theorem clearBacktrack_getP (f : Field) (a b : Nat) :
    (f.clearBacktrack).getP a b = { f.getP a b with exits_backtrack := Exits.none } := by
  simp only [Field.clearBacktrack, Field.getP, List.getElem?_map]
  cases f.data[b * f.width + a]? <;> rfl

theorem clearBacktrack_length (f : Field) :
    f.clearBacktrack.data.length = f.data.length := by
  simp [Field.clearBacktrack]

theorem build_backtrack_val (f : Field) (x y : Nat) (hwf : f.wf)
    (hx : x < f.width) (hy : y < f.height) :
    ((f.build_backtrack).getP x y).exits_backtrack.val =
      orList (f.positions.map (contrib f x y)) := by
  have hwf' : f.data.length = f.width * f.height := hwf
  unfold Field.build_backtrack
  rw [foldl_buildStep_val f x y hx hy f.positions f.clearBacktrack rfl rfl
    (by rw [clearBacktrack_length]; exact hwf')
    (fun a b => by rw [clearBacktrack_getP])]
  rw [clearBacktrack_getP]
  exact Nat.zero_or _

theorem build_backtrack_width (f : Field) : f.build_backtrack.width = f.width := by
  unfold Field.build_backtrack
  rw [foldl_buildStep_width]
  rfl

theorem build_backtrack_height (f : Field) : f.build_backtrack.height = f.height := by
  unfold Field.build_backtrack
  rw [foldl_buildStep_height]
  rfl

theorem build_backtrack_getP_exits (f : Field) (a b : Nat) :
    ((f.build_backtrack).getP a b).exits = (f.getP a b).exits := by
  unfold Field.build_backtrack
  rw [foldl_buildStep_getP_exits, clearBacktrack_getP]

theorem build_backtrack_getP_kind (f : Field) (a b : Nat) :
    ((f.build_backtrack).getP a b).kind = (f.getP a b).kind := by
  unfold Field.build_backtrack
  rw [foldl_buildStep_getP_kind, clearBacktrack_getP]

/-! ## Backtrack reconstruction: from the fold to the specified bits -/

theorem orList_map_testBit {α : Type} (g : α → Nat) (L : List α) (i : Nat) :
    (orList (L.map g)).testBit i = L.any (fun q => (g q).testBit i) := by
  have hcons : ∀ (c : Nat) (cs : List Nat), orList (c :: cs) = c ||| orList cs :=
    fun _ _ => rfl
  induction L with
  | nil => simp [orList]
  | cons a t ih =>
    rw [List.map_cons, hcons, Nat.testBit_lor, ih, List.any_cons]

theorem testBit_ite (c : Prop) [Decidable c] (v i : Nat) :
    (if c then v else 0).testBit i = (decide c && v.testBit i) := by
  split_ifs with h <;> simp [h]

theorem mem_positions (f : Field) (q : Nat × Nat) :
    q ∈ f.positions ↔ q.1 < f.width ∧ q.2 < f.height := by
  obtain ⟨a, b⟩ := q
  simp only [Field.positions, List.mem_flatMap, List.mem_map, List.mem_range]
  constructor
  · rintro ⟨y, hy, x, hx, heq⟩
    cases heq
    exact ⟨hx, hy⟩
  · rintro ⟨ha, hb⟩
    exact ⟨b, hb, a, ha, rfl⟩

theorem contrib_dir_south (f : Field) (x y : Nat) (hx : x < f.width) (hy : y < f.height) :
    (∃ q : Nat × Nat, (q.1 < f.width ∧ q.2 < f.height) ∧
      ((f.getP q.1 q.2).exits.has Exits.SOUTH = true ∧
        offset_common f q.1 q.2 0 (-1) = Option.some (x, y))) ↔
    (y + 1 < f.height ∧ (f.getP x (y + 1)).exits.has Exits.SOUTH = true) := by
  constructor
  · rintro ⟨⟨qa, qb⟩, ⟨hqa, hqb⟩, hhas, hoc⟩
    rw [offset_common_eq_some] at hoc
    obtain ⟨hc1, hc2, -, -⟩ := hoc
    have hqax : qa = x := by omega
    have hqby : qb = y + 1 := by omega
    subst hqax hqby
    exact ⟨hqb, hhas⟩
  · rintro ⟨hlt, hhas⟩
    refine ⟨(x, y + 1), ⟨hx, hlt⟩, hhas, ?_⟩
    rw [offset_common_eq_some]
    exact ⟨by omega, by omega, hx, hy⟩

theorem contrib_dir_north (f : Field) (x y : Nat) (hx : x < f.width) (hy : y < f.height) :
    (∃ q : Nat × Nat, (q.1 < f.width ∧ q.2 < f.height) ∧
      ((f.getP q.1 q.2).exits.has Exits.NORTH = true ∧
        offset_common f q.1 q.2 0 1 = Option.some (x, y))) ↔
    (1 ≤ y ∧ (f.getP x (y - 1)).exits.has Exits.NORTH = true) := by
  constructor
  · rintro ⟨⟨qa, qb⟩, ⟨hqa, hqb⟩, hhas, hoc⟩
    rw [offset_common_eq_some] at hoc
    obtain ⟨hc1, hc2, -, -⟩ := hoc
    have hqax : qa = x := by omega
    have hqby : qb = y - 1 := by omega
    have hy1 : 1 ≤ y := by omega
    subst hqax hqby
    exact ⟨hy1, hhas⟩
  · rintro ⟨hy1, hhas⟩
    refine ⟨(x, y - 1), ⟨hx, by omega⟩, hhas, ?_⟩
    rw [offset_common_eq_some]
    exact ⟨by omega, by omega, hx, hy⟩

theorem contrib_dir_west (f : Field) (x y : Nat) (hx : x < f.width) (hy : y < f.height) :
    (∃ q : Nat × Nat, (q.1 < f.width ∧ q.2 < f.height) ∧
      ((f.getP q.1 q.2).exits.has Exits.WEST = true ∧
        offset_common f q.1 q.2 (-1) 0 = Option.some (x, y))) ↔
    (x + 1 < f.width ∧ (f.getP (x + 1) y).exits.has Exits.WEST = true) := by
  constructor
  · rintro ⟨⟨qa, qb⟩, ⟨hqa, hqb⟩, hhas, hoc⟩
    rw [offset_common_eq_some] at hoc
    obtain ⟨hc1, hc2, -, -⟩ := hoc
    have hqax : qa = x + 1 := by omega
    have hqby : qb = y := by omega
    subst hqax hqby
    exact ⟨hqa, hhas⟩
  · rintro ⟨hlt, hhas⟩
    refine ⟨(x + 1, y), ⟨hlt, hy⟩, hhas, ?_⟩
    rw [offset_common_eq_some]
    exact ⟨by omega, by omega, hx, hy⟩

theorem contrib_dir_east (f : Field) (x y : Nat) (hx : x < f.width) (hy : y < f.height) :
    (∃ q : Nat × Nat, (q.1 < f.width ∧ q.2 < f.height) ∧
      ((f.getP q.1 q.2).exits.has Exits.EAST = true ∧
        offset_common f q.1 q.2 1 0 = Option.some (x, y))) ↔
    (1 ≤ x ∧ (f.getP (x - 1) y).exits.has Exits.EAST = true) := by
  constructor
  · rintro ⟨⟨qa, qb⟩, ⟨hqa, hqb⟩, hhas, hoc⟩
    rw [offset_common_eq_some] at hoc
    obtain ⟨hc1, hc2, -, -⟩ := hoc
    have hx1 : 1 ≤ x := by omega
    have hqax : qa = x - 1 := by omega
    have hqby : qb = y := by omega
    subst hqax hqby
    exact ⟨hx1, hhas⟩
  · rintro ⟨hx1, hhas⟩
    refine ⟨(x - 1, y), ⟨by omega, hy⟩, hhas, ?_⟩
    rw [offset_common_eq_some]
    exact ⟨by omega, by omega, hx, hy⟩

theorem orList_contrib_spec (f : Field) (x y : Nat)
    (hx : x < f.width) (hy : y < f.height) :
    orList (f.positions.map (contrib f x y)) = backtrackSpecVal f x y := by
  apply Nat.eq_of_testBit_eq
  intro i
  rw [orList_map_testBit, Bool.eq_iff_iff, List.any_eq_true]
  simp only [contrib, backtrackSpecVal, Nat.testBit_lor, testBit_ite,
    Bool.or_eq_true, Bool.and_eq_true, decide_eq_true_eq, mem_positions,
    show Exits.NORTH.val = 2 ^ 1 from rfl, show Exits.SOUTH.val = 2 ^ 3 from rfl,
    show Exits.EAST.val = 2 ^ 2 from rfl, show Exits.WEST.val = 2 ^ 0 from rfl,
    Nat.testBit_two_pow]
  constructor
  · rintro ⟨q, hmem, hor⟩
    rcases hor with ((⟨hc, hi⟩ | ⟨hc, hi⟩) | ⟨hc, hi⟩) | ⟨hc, hi⟩
    · exact Or.inl (Or.inl (Or.inl
        ⟨(contrib_dir_south f x y hx hy).mp ⟨q, hmem, hc⟩, hi⟩))
    · exact Or.inl (Or.inl (Or.inr
        ⟨(contrib_dir_north f x y hx hy).mp ⟨q, hmem, hc⟩, hi⟩))
    · exact Or.inl (Or.inr ⟨(contrib_dir_west f x y hx hy).mp ⟨q, hmem, hc⟩, hi⟩)
    · exact Or.inr ⟨(contrib_dir_east f x y hx hy).mp ⟨q, hmem, hc⟩, hi⟩
  · intro hor
    rcases hor with ((⟨hc, hi⟩ | ⟨hc, hi⟩) | ⟨hc, hi⟩) | ⟨hc, hi⟩
    · obtain ⟨q, hmem, hq⟩ := (contrib_dir_south f x y hx hy).mpr hc
      exact ⟨q, hmem, Or.inl (Or.inl (Or.inl ⟨hq, hi⟩))⟩
    · obtain ⟨q, hmem, hq⟩ := (contrib_dir_north f x y hx hy).mpr hc
      exact ⟨q, hmem, Or.inl (Or.inl (Or.inr ⟨hq, hi⟩))⟩
    · obtain ⟨q, hmem, hq⟩ := (contrib_dir_west f x y hx hy).mpr hc
      exact ⟨q, hmem, Or.inl (Or.inr ⟨hq, hi⟩)⟩
    · obtain ⟨q, hmem, hq⟩ := (contrib_dir_east f x y hx hy).mpr hc
      exact ⟨q, hmem, Or.inr ⟨hq, hi⟩⟩

theorem build_backtrack_spec (f : Field) (x y : Nat) (hwf : f.wf)
    (hx : x < f.width) (hy : y < f.height) :
    ((f.build_backtrack).getP x y).exits_backtrack.val = backtrackSpecVal f x y := by
  rw [build_backtrack_val f x y hwf hx hy, orList_contrib_spec f x y hx hy]

/-- C2: after `build_backtrack`, a panel's `exits_backtrack` holds exactly
the bits derived from its in-bounds neighbors' forward exits, and nothing
else. -/
theorem claim2_build_backtrack (f : Field) (x y : Nat) (hwf : f.wf)
    (hx : x < f.width) (hy : y < f.height) :
    ((f.build_backtrack).getP x y).exits_backtrack.val = backtrackSpecVal f x y :=
  build_backtrack_spec f x y hwf hx hy

/-- Witness for C2: on the 2x2 grid where only `(0,0)` exits East, panel
`(1,0)` ends with exactly the West backtrack bit and every other panel ends
with no backtrack bits. -/
theorem claim2_witness :
    ((ex22.build_backtrack).getP 1 0).exits_backtrack.val = backtrackSpecVal ex22 1 0 ∧
    backtrackSpecVal ex22 1 0 = Exits.WEST.val ∧
    ((ex22.build_backtrack).getP 0 0).exits_backtrack.val = 0 ∧
    ((ex22.build_backtrack).getP 0 1).exits_backtrack.val = 0 ∧
    ((ex22.build_backtrack).getP 1 1).exits_backtrack.val = 0 :=
  ⟨claim2_build_backtrack ex22 1 0 (by decide) (by decide) (by decide),
    by decide, by decide, by decide, by decide⟩

/-! ## Direction-to-offset mapping (C10) -/

theorem has_of_testBit (v e : Exits) (i : Nat) (he : e.val = 2 ^ i)
    (h : v.val.testBit i = true) : v.has e = true := by
  unfold Exits.has
  rw [decide_eq_true_eq, he, Nat.and_two_pow, h]
  simp only [Bool.toNat_true, one_mul]
  exact Nat.two_pow_pos i

theorem specVal_testBit_north (f : Field) (x y : Nat)
    (h1 : y + 1 < f.height) (h2 : (f.getP x (y + 1)).exits.has Exits.SOUTH = true) :
    (backtrackSpecVal f x y).testBit 1 = true := by
  unfold backtrackSpecVal
  simp only [Nat.testBit_lor, testBit_ite, Bool.or_eq_true, Bool.and_eq_true,
    decide_eq_true_eq]
  exact Or.inl (Or.inl (Or.inl ⟨⟨h1, h2⟩, by decide⟩))

theorem specVal_testBit_south (f : Field) (x y : Nat)
    (h1 : 1 ≤ y) (h2 : (f.getP x (y - 1)).exits.has Exits.NORTH = true) :
    (backtrackSpecVal f x y).testBit 3 = true := by
  unfold backtrackSpecVal
  simp only [Nat.testBit_lor, testBit_ite, Bool.or_eq_true, Bool.and_eq_true,
    decide_eq_true_eq]
  exact Or.inl (Or.inl (Or.inr ⟨⟨h1, h2⟩, by decide⟩))

theorem specVal_testBit_east (f : Field) (x y : Nat)
    (h1 : x + 1 < f.width) (h2 : (f.getP (x + 1) y).exits.has Exits.WEST = true) :
    (backtrackSpecVal f x y).testBit 2 = true := by
  unfold backtrackSpecVal
  simp only [Nat.testBit_lor, testBit_ite, Bool.or_eq_true, Bool.and_eq_true,
    decide_eq_true_eq]
  exact Or.inl (Or.inr ⟨⟨h1, h2⟩, by decide⟩)

theorem specVal_testBit_west (f : Field) (x y : Nat)
    (h1 : 1 ≤ x) (h2 : (f.getP (x - 1) y).exits.has Exits.EAST = true) :
    (backtrackSpecVal f x y).testBit 0 = true := by
  unfold backtrackSpecVal
  simp only [Nat.testBit_lor, testBit_ite, Bool.or_eq_true, Bool.and_eq_true,
    decide_eq_true_eq]
  exact Or.inr ⟨⟨h1, h2⟩, by decide⟩

/-- C10: the four direction names map to the fixed coordinate offsets used
by `build_backtrack` (South is decreasing `y`), and the pass never changes
any panel's kind or forward exits nor the field's dimensions. -/
theorem claim10_directions (f : Field) (hwf : f.wf) :
    f.build_backtrack.width = f.width ∧
    f.build_backtrack.height = f.height ∧
    (∀ x y : Nat, ((f.build_backtrack).getP x y).kind = (f.getP x y).kind ∧
      ((f.build_backtrack).getP x y).exits = (f.getP x y).exits) ∧
    (∀ x y : Nat, x < f.width → y < f.height →
      ((f.getP x y).exits.has Exits.SOUTH = true → 1 ≤ y →
        ((f.build_backtrack).getP x (y - 1)).exits_backtrack.has Exits.NORTH = true) ∧
      ((f.getP x y).exits.has Exits.NORTH = true → y + 1 < f.height →
        ((f.build_backtrack).getP x (y + 1)).exits_backtrack.has Exits.SOUTH = true) ∧
      ((f.getP x y).exits.has Exits.WEST = true → 1 ≤ x →
        ((f.build_backtrack).getP (x - 1) y).exits_backtrack.has Exits.EAST = true) ∧
      ((f.getP x y).exits.has Exits.EAST = true → x + 1 < f.width →
        ((f.build_backtrack).getP (x + 1) y).exits_backtrack.has Exits.WEST = true)) := by
  refine ⟨build_backtrack_width f, build_backtrack_height f,
    fun x y => ⟨build_backtrack_getP_kind f x y, build_backtrack_getP_exits f x y⟩,
    fun x y hx hy => ⟨?_, ?_, ?_, ?_⟩⟩
  · intro hhas hy1
    apply has_of_testBit _ Exits.NORTH 1 rfl
    rw [build_backtrack_spec f x (y - 1) hwf hx (by omega)]
    apply specVal_testBit_north
    · omega
    · rw [show y - 1 + 1 = y by omega]
      exact hhas
  · intro hhas hy1
    apply has_of_testBit _ Exits.SOUTH 3 rfl
    rw [build_backtrack_spec f x (y + 1) hwf hx hy1]
    apply specVal_testBit_south
    · omega
    · rw [show y + 1 - 1 = y by omega]
      exact hhas
  · intro hhas hx1
    apply has_of_testBit _ Exits.EAST 2 rfl
    rw [build_backtrack_spec f (x - 1) y hwf (by omega) hy]
    apply specVal_testBit_east
    · omega
    · rw [show x - 1 + 1 = x by omega]
      exact hhas
  · intro hhas hx1
    apply has_of_testBit _ Exits.WEST 0 rfl
    rw [build_backtrack_spec f (x + 1) y hwf hx1 hy]
    apply specVal_testBit_west
    · omega
    · rw [show x + 1 - 1 = x by omega]
      exact hhas

/-- Witness for C10 at the 2x2 example: dimensions survive, and the East
exit of `(0,0)` puts the West backtrack bit on `(1,0)`. -/
theorem claim10_witness :
    ex22.build_backtrack.width = ex22.width ∧
    ((ex22.build_backtrack).getP 1 0).exits_backtrack.has Exits.WEST = true :=
  ⟨(claim10_directions ex22 (by decide)).1,
    ((claim10_directions ex22 (by decide)).2.2.2 0 0 (by decide) (by decide)).2.2.2
      (by decide) (by decide)⟩

end Citrus
